import Mathlib

set_option maxRecDepth 100000

/-!
Verification of the null-space core: the vault container codec, the
conflict-resolution engine (vault.rs) and the authenticated-encryption
layer (crypto.rs), shallowly embedded in Lean.

Bytes are modelled as `List Nat` (each element a value `< 256` where it
matters).  Randomness (the per-call AES-GCM nonce, the fresh v4 UUID in
`resolve_conflict`) is modelled by passing the randomly drawn value as an
explicit parameter.  The external `aes_gcm` crate's `Aes256Gcm` is modelled
as GCM mode (NIST SP 800-38D: 12-byte nonce, CTR keystream with 32-bit
counter starting at 2, GHASH over GF(2^128), 16-byte tag) over the AES-256
block function, which is kept abstract as a field `blockCipher` of the
manager, since AES itself lives outside this repository.
-/

namespace NullSpace

/-! ## Crypto layer (src/core/null-space-core/src/crypto.rs) -/

/-- Error type of crypto.rs (`enum EncryptionError`); payload strings dropped. -/
inductive EncError where
  | encryptionFailed
  | decryptionFailed
  | keyDerivationFailed
  | invalidKeyLength
deriving DecidableEq, Repr

/-- Big-endian byte rendering of `n` on `k` bytes (most significant first). -/
def natToBytesBE (k n : Nat) : List Nat :=
  (List.range k).map (fun i => n / 256 ^ (k - 1 - i) % 256)

/-- Big-endian byte-list to natural number. -/
def bytesToNatBE (bs : List Nat) : Nat :=
  bs.foldl (fun acc b => acc * 256 + b) 0

/-- GF(2^128) multiplication in the GCM bit convention (SP 800-38D,
algorithm 1; reduction constant R = 0xE1 followed by 15 zero bytes). -/
def gmul (x y : Nat) : Nat :=
  ((List.range 128).foldl
    (fun zv i =>
      (if x.testBit (127 - i) then zv.1 ^^^ zv.2 else zv.1,
       if zv.2 % 2 = 1 then (zv.2 / 2) ^^^ 0xE1000000000000000000000000000000
       else zv.2 / 2))
    (0, y)).1

/-- GHASH over a list of 128-bit blocks with hash subkey `h`. -/
def ghashBlocks (h : Nat) (blocks : List Nat) : Nat :=
  blocks.foldl (fun acc b => gmul (acc ^^^ b) h) 0

/-- The ciphertext split into 16-byte blocks, the last one zero-padded on
the right, each read as a 128-bit big-endian value (GHASH input blocks). -/
def ctBlocks (ct : List Nat) : List Nat :=
  (List.range ((ct.length + 15) / 16)).map (fun i =>
    bytesToNatBE ((ct.drop (16 * i)).take 16
      ++ List.replicate (16 - ((ct.drop (16 * i)).take 16).length) 0))

/-- The i-th CTR block input: 96-bit nonce followed by the 32-bit counter,
which starts at 2 for the first ciphertext block. -/
def ctrBlock (nN i : Nat) : Nat :=
  (nN % 2 ^ 96) * 2 ^ 32 + ((2 + i) % 2 ^ 32)

/-- CTR keystream of `len` bytes: byte `j` is byte `j % 16` of
`E(key, nonce ∥ counter(2 + j / 16))`. -/
def keystream (E : Nat → Nat → Nat) (key nN len : Nat) : List Nat :=
  (List.range len).map (fun j =>
    (E key (ctrBlock nN (j / 16)) % 2 ^ 128) / 256 ^ (15 - j % 16) % 256)

/-- Pointwise XOR of two byte strings (truncates to the shorter one,
like `zip`). -/
def xorBytes (a b : List Nat) : List Nat :=
  List.zipWith (fun x y => x ^^^ y) a b

/-- The GCM authentication tag (as a 128-bit value) for ciphertext `ct`
under nonce `nN`: GHASH of the padded ciphertext blocks and the length
block, masked with `E(key, J0)` where `J0 = nonce ∥ 1`. -/
def gcmTag (E : Nat → Nat → Nat) (key nN : Nat) (ct : List Nat) : Nat :=
  ghashBlocks (E key 0 % 2 ^ 128) (ctBlocks ct ++ [8 * ct.length % 2 ^ 64])
    ^^^ (E key ((nN % 2 ^ 96) * 2 ^ 32 + 1) % 2 ^ 128)

/-- Models crypto.rs `struct EncryptionManager { cipher: Aes256Gcm }`:
the 256-bit key derived by `new_from_password` together with the AES-256
block function the `aes_gcm` crate applies under that key.  The block
function is abstract (AES-256 itself is the external `aes` crate). -/
structure EncryptionManager where
  key : Nat
  blockCipher : Nat → Nat → Nat

/-- Models `EncryptionManager::encrypt` (crypto.rs lines 65-79): a fresh
random 12-byte nonce (passed here as the explicit parameter `nonceBytes`)
is prepended to the AES-256-GCM ciphertext, which is the CTR-encrypted
plaintext followed by the 16-byte authentication tag.  The source's
`EncryptionFailed` path (plaintext beyond AES-GCM's length bound) is
outside the modelled range, so the result is total. -/
def EncryptionManager.encrypt (m : EncryptionManager) (nonceBytes plaintext : List Nat) :
    List Nat :=
  nonceBytes
    ++ xorBytes plaintext
        (keystream m.blockCipher m.key (bytesToNatBE nonceBytes) plaintext.length)
    ++ natToBytesBE 16
        (gcmTag m.blockCipher m.key (bytesToNatBE nonceBytes)
          (xorBytes plaintext
            (keystream m.blockCipher m.key (bytesToNatBE nonceBytes) plaintext.length)))

/-- Models `EncryptionManager::decrypt` (crypto.rs lines 82-95): fail with
`DecryptionFailed` if the blob is shorter than the 12-byte nonce; split off
the nonce; then AES-256-GCM decryption of the rest: fail if it is shorter
than the 16-byte tag, recompute the tag over the ciphertext body and
compare it with the stored tag, and only on a match return the CTR
decryption of the body. -/
def EncryptionManager.decrypt (m : EncryptionManager) (blob : List Nat) :
    Except EncError (List Nat) :=
  if blob.length < 12 then .error .decryptionFailed
  else
    let rest := blob.drop 12
    if rest.length < 16 then .error .decryptionFailed
    else
      let ct := rest.take (rest.length - 16)
      let nN := bytesToNatBE (blob.take 12)
      if rest.drop (rest.length - 16) = natToBytesBE 16 (gcmTag m.blockCipher m.key nN ct)
      then .ok (xorBytes ct (keystream m.blockCipher m.key nN ct.length))
      else .error .decryptionFailed

/-- Models `impl Drop for EncryptionManager` (crypto.rs lines 98-102).
The drop body in the source is empty (it holds only the comment
"Zeroize sensitive data on drop"), so dropping returns the manager's
state unchanged: in particular the key is NOT overwritten with zeros. -/
def dropEncryptionManager (m : EncryptionManager) : EncryptionManager := m

/-! ## Data model (src/core/null-space-core/src/models.rs)

A `Uuid` is a 128-bit value, modelled as `Nat`; a `chrono::DateTime<Utc>`
is an instant, modelled as `Nat` (the claims only compare timestamps for
equality). -/

/-- Models `struct Note` (models.rs lines 8-24). -/
structure Note where
  id : Nat
  title : String
  content : String
  tags : List String
  created_at : Nat
  updated_at : Nat
  version : Nat
deriving DecidableEq, Repr

/-- Models `struct Vault` (models.rs lines 94-108). -/
structure Vault where
  id : Nat
  name : String
  description : String
  created_at : Nat
  updated_at : Nat
  salt : String
deriving DecidableEq, Repr

/-- Models `struct VaultMetadata` (models.rs lines 126-132). -/
structure VaultMetadata where
  vault : Vault
  note_count : Nat
  export_date : Nat
  version : String
deriving DecidableEq, Repr

/-- Models `enum ConflictResolution` (models.rs lines 135-143). -/
inductive ConflictResolution where
  | overwrite
  | keepBoth
  | skip
deriving DecidableEq, Repr

/-- Models storage.rs `struct FileStorage`: the key -> bytes persistence
abstraction, as a list of (relative path, contents) pairs.  None of the
four VaultManager operations under verification touches it. -/
structure FileStorage where
  store : List (String × List Nat)

/-! ## Vault container codec (src/core/null-space-core/src/vault.rs) -/

/-- Models vault.rs `enum VaultError`; payloads dropped (the claims only
distinguish constructors). -/
inductive VaultError where
  | ioError
  | zipError
  | serializationError
  | encryptionError
  | vaultNotFound
  | invalidFormat
deriving DecidableEq, Repr

/-- Models the external serde_json + UTF-8 layer: serialization of a
`Note` or `VaultMetadata` to the bytes of its pretty-printed JSON, and the
reverse parse.  The codec is a parameter of the vault operations; each
claim's theorem carries the round-trip facts it needs as pointwise
hypotheses, so nothing about serde_json is assumed globally.  UTF-8
decoding and JSON parsing are collapsed into the `des` functions (the
source reports a UTF-8 failure as `InvalidFormat` and a JSON failure as
`SerializationError`; no claim distinguishes the two, and the model
reports `serializationError`). -/
structure JsonCodec where
  serNote : Note → List Nat
  desNote : List Nat → Option Note
  serMeta : VaultMetadata → List Nat
  desMeta : List Nat → Option VaultMetadata

/-- A zip archive entry: (file name, raw stored bytes). -/
abbrev Entry := List Char × List Nat

/-- Models the zip file produced or consumed by VaultManager: the ordered
list of its entries (order of writing = central-directory order). -/
abbrev Archive := List Entry

/-- `startsWithL p s` is true iff `p` is a prefix of `s`
(models `str::starts_with`). -/
def startsWithL : List Char → List Char → Bool
  | [], _ => true
  | _ :: _, [] => false
  | p :: ps, c :: cs => p == c && startsWithL ps cs

/-- Models `str::ends_with`. -/
def endsWithL (s l : List Char) : Bool :=
  startsWithL s.reverse l.reverse

/-- The name of the metadata entry, `"metadata.json"`. -/
def metadataName : List Char := "metadata.json".data

/-- Hex digit character (lowercase), as in uuid's `Display`. -/
def hexChar (n : Nat) : Char :=
  if n < 10 then Char.ofNat (48 + n) else Char.ofNat (87 + n)

/-- The hyphenated lowercase-hex rendering of a 128-bit uuid
(`8-4-4-4-12` groups), as produced by `format!("{}", note.id)`. -/
def uuidChars (id : Nat) : List Char :=
  let ds := (List.range 32).map (fun i => hexChar (id / 16 ^ (31 - i) % 16))
  ds.take 8 ++ '-' :: ((ds.drop 8).take 4 ++ '-' :: ((ds.drop 12).take 4
    ++ '-' :: ((ds.drop 16).take 4 ++ '-' :: ds.drop 20)))

/-- The archive entry name for a note, `format!("notes/{}.json", note.id)`
(vault.rs line 75). -/
def noteFileName (id : Nat) : List Char :=
  "notes/".data ++ uuidChars id ++ ".json".data

/-- The import loop's filter (vault.rs line 109):
`name.starts_with("notes/") && name.ends_with(".json")`. -/
def isNoteEntryName (name : List Char) : Bool :=
  startsWithL "notes/".data name && endsWithL ".json".data name

/-- The metadata record built by export (vault.rs lines 55-60):
vault clone, `note_count = notes.len()`, export date, schema "1.0". -/
def mkMetadata (v : Vault) (notes : List Note) (exportDate : Nat) : VaultMetadata :=
  ⟨v, notes.length, exportDate, "1.0"⟩

/-- The note entries written by export's loop (vault.rs lines 66-78), in
order: each note is serialized and, when a cipher is supplied, encrypted
under the fresh random nonce drawn for it (modelled by the nonce supply
`nonces`, indexed by the note's position `i`). -/
def mkNoteEntries (c : JsonCodec) (enc : Option EncryptionManager)
    (nonces : Nat → List Nat) : Nat → List Note → Archive
  | _, [] => []
  | i, n :: rest =>
    (noteFileName n.id,
      match enc with
      | none => c.serNote n
      | some m => m.encrypt (nonces i) (c.serNote n)) ::
    mkNoteEntries c enc nonces (i + 1) rest

/-- Models `VaultManager::export_vault` (vault.rs lines 43-82): the
archive written to the output path, with the metadata entry first and one
entry per note in order.  I/O failures (file creation, zip writing) are
outside the model, so the archive is returned directly. -/
def exportVault (mgr : FileStorage) (vault : Vault) (notes : List Note)
    (c : JsonCodec) (enc : Option EncryptionManager)
    (nonces : Nat → List Nat) (exportDate : Nat) : Archive :=
  (metadataName, c.serMeta (mkMetadata vault notes exportDate)) ::
    mkNoteEntries c enc nonces 0 notes

/-- The note-reading loop of `import_vault` (vault.rs lines 102-125):
walk every entry in order; for each whose name passes the notes filter,
decrypt its bytes when a cipher is supplied (a decrypt failure becomes
`EncryptionError` and aborts the whole import), then parse the note. -/
def readNotes (c : JsonCodec) (enc : Option EncryptionManager) :
    Archive → Except VaultError (List Note)
  | [] => .ok []
  | (name, data) :: rest =>
    if isNoteEntryName name then
      match (match enc with
             | none => Except.ok data
             | some m => (m.decrypt data).mapError (fun _ => VaultError.encryptionError)) with
      | .error e => .error e
      | .ok payload =>
        match c.desNote payload with
        | none => .error .serializationError
        | some note =>
          match readNotes c enc rest with
          | .error e => .error e
          | .ok notes => .ok (note :: notes)
    else readNotes c enc rest

/-- Models `VaultManager::import_vault` (vault.rs lines 85-128): look up
and parse the `metadata.json` entry (a missing entry is the zip crate's
`FileNotFound`, surfaced as `VaultError::ZipError`), then run the
note-reading loop over all entries, and return the vault from the
metadata together with the parsed notes.  The `conflict_resolution`
parameter is accepted and never used, exactly as the source's
`_conflict_resolution`; the manager's storage is likewise never touched. -/
def importVault (mgr : FileStorage) (archive : Archive) (c : JsonCodec)
    (enc : Option EncryptionManager) (conflictRes : ConflictResolution) :
    Except VaultError (Vault × List Note) :=
  match archive.find? (fun e => e.1 == metadataName) with
  | none => .error .zipError
  | some (_, mbytes) =>
    match c.desMeta mbytes with
    | none => .error .serializationError
    | some md =>
      match readNotes c enc archive with
      | .error e => .error e
      | .ok notes => .ok (md.vault, notes)

/-! ## Conflict resolution engine (vault.rs lines 130-169) -/

/-- Models `VaultManager::detect_conflicts` (vault.rs lines 131-150): for
each imported note in order, find the first existing note with the same
id; push the pair iff version or updated_at differ. -/
def detectConflicts (mgr : FileStorage) (existing : List Note) :
    List Note → List (Note × Note)
  | [] => []
  | imported :: rest =>
    match existing.find? (fun n => n.id == imported.id) with
    | some ex =>
      if ex.version ≠ imported.version ∨ ex.updated_at ≠ imported.updated_at
      then (ex, imported) :: detectConflicts mgr existing rest
      else detectConflicts mgr existing rest
    | none => detectConflicts mgr existing rest

/-- Models `VaultManager::resolve_conflict` (vault.rs lines 153-169).
The fresh `Uuid::new_v4()` drawn in the KeepBoth arm is modelled by the
explicit parameter `freshId`. -/
def resolveConflict (mgr : FileStorage) (existing imported : Note)
    (freshId : Nat) : ConflictResolution → List Note
  | .overwrite => [imported]
  | .keepBoth =>
    [existing,
     { imported with id := freshId, title := imported.title ++ " (Imported Copy)" }]
  | .skip => [existing]

/-! ## Concrete instances used by witnesses and counterexamples -/

instance {ε α : Type} [DecidableEq ε] [DecidableEq α] : DecidableEq (Except ε α)
  | .error e, .error f =>
    if h : e = f then .isTrue (by rw [h])
    else .isFalse (fun hh => h (by cases hh; rfl))
  | .error _, .ok _ => .isFalse (fun hh => Except.noConfusion hh)
  | .ok _, .error _ => .isFalse (fun hh => Except.noConfusion hh)
  | .ok a, .ok b =>
    if h : a = b then .isTrue (by rw [h])
    else .isFalse (fun hh => h (by cases hh; rfl))

/-- An empty storage (the VaultManager operations never touch it). -/
def mgr0 : FileStorage := ⟨[]⟩

/-- A degenerate manager: key 0, block function constantly 0.  Its GCM hash
subkey H = E(K, 0) is 0, so every authentication tag is the zero block. -/
def m0 : EncryptionManager := ⟨0, fun _ _ => 0⟩

/-- A manager with nonzero key, for the Drop (zeroization) claim. -/
def mC9 : EncryptionManager := ⟨42, fun _ b => b⟩

/-- A concrete 12-byte nonce. -/
def nz12 : List Nat := List.replicate 12 0

def wNote1 : Note := ⟨1, "", "", [], 0, 0, 1⟩

def wNote2 : Note := ⟨2, "", "", [], 0, 0, 2⟩

/-- Same id and updated_at as `wNote1` but version 2. -/
def wNote1v2 : Note := ⟨1, "", "", [], 0, 0, 2⟩

def wVault : Vault := ⟨7, "", "", 0, 0, ""⟩

/-- A codec that round-trips `wNote1`, `wNote2` and the metadata of the
two-note export of `wVault` (enough for the unencrypted round-trip
witness). -/
def wCodecC1 : JsonCodec where
  serNote := fun n => [n.version]
  desNote := fun bs =>
    if bs = [1] then some wNote1 else if bs = [2] then some wNote2 else none
  serMeta := fun _ => [0]
  desMeta := fun _ => some (mkMetadata wVault [wNote1, wNote2] 0)

/-- A codec whose note parse always fails (its metadata parse succeeds). -/
def wCodecC3 : JsonCodec where
  serNote := fun _ => []
  desNote := fun _ => none
  serMeta := fun _ => []
  desMeta := fun _ => some (mkMetadata wVault [] 0)

/-- An archive whose first note entry decrypts fine under `m0` but fails
to parse, and whose second note entry fails to decrypt (too short). -/
def cexArchiveC3 : Archive :=
  [(metadataName, [0]),
   (noteFileName 1, nz12 ++ [99] ++ List.replicate 16 0),
   (noteFileName 2, [])]

/-- A codec whose metadata claims five notes regardless of input. -/
def wCodecC10 : JsonCodec where
  serNote := fun _ => []
  desNote := fun _ => some wNote1
  serMeta := fun _ => []
  desMeta := fun _ => some ⟨wVault, 5, 0, "1.0"⟩

/-- An archive with exactly one note entry (metadata will claim five). -/
def wArchiveC10 : Archive := [(metadataName, [0]), (noteFileName 1, [9])]

/-- Two existing notes sharing one id: same updated_at, versions 1 and 2. -/
def e1c4 : Note := ⟨1, "", "", [], 0, 10, 1⟩

def e2c4 : Note := ⟨1, "", "", [], 0, 10, 2⟩

/-! ## Helper lemmas: crypto layer -/

theorem length_natToBytesBE (k n : Nat) : (natToBytesBE k n).length = k := by
  simp [natToBytesBE]

theorem length_keystream (E : Nat → Nat → Nat) (key nN len : Nat) :
    (keystream E key nN len).length = len := by
  simp [keystream]

theorem length_xorBytes (a b : List Nat) :
    (xorBytes a b).length = min a.length b.length := by
  simp [xorBytes, List.length_zipWith]

theorem length_ctBody (E : Nat → Nat → Nat) (key nN : Nat) (p : List Nat) :
    (xorBytes p (keystream E key nN p.length)).length = p.length := by
  simp [length_xorBytes, length_keystream]

theorem xorBytes_cancel : ∀ (p ks : List Nat), p.length ≤ ks.length →
    xorBytes (xorBytes p ks) ks = p
  | [], _, _ => by simp [xorBytes]
  | a :: as, [], h => by simp at h
  | a :: as, b :: bs, h => by
    simp only [xorBytes, List.zipWith_cons_cons]
    exact congrArg₂ (· :: ·) (Nat.xor_cancel_right b a)
      (xorBytes_cancel as bs (by simpa using h))

theorem encrypt_length (m : EncryptionManager) (nonce p : List Nat) :
    (m.encrypt nonce p).length = nonce.length + p.length + 16 := by
  simp [EncryptionManager.encrypt, List.length_append, length_ctBody,
    length_natToBytesBE]
  omega

theorem decrypt_append (m : EncryptionManager) (nonce ct tag : List Nat)
    (h12 : nonce.length = 12) (h16 : tag.length = 16) :
    m.decrypt (nonce ++ ct ++ tag) =
      if tag = natToBytesBE 16 (gcmTag m.blockCipher m.key (bytesToNatBE nonce) ct)
      then .ok (xorBytes ct (keystream m.blockCipher m.key (bytesToNatBE nonce) ct.length))
      else .error .decryptionFailed := by
  have hassoc : nonce ++ ct ++ tag = nonce ++ (ct ++ tag) := List.append_assoc ..
  have htake : (nonce ++ ct ++ tag).take 12 = nonce := by
    rw [hassoc, ← h12, List.take_left]
  have hdrop : (nonce ++ ct ++ tag).drop 12 = ct ++ tag := by
    rw [hassoc, ← h12, List.drop_left]
  have hlen : (nonce ++ ct ++ tag).length = ct.length + 28 := by
    simp [List.length_append, h12, h16]; omega
  have hrl : (ct ++ tag).length = ct.length + 16 := by simp [h16]
  have hsub : ct.length + 16 - 16 = ct.length := by omega
  have htake2 : (ct ++ tag).take (ct.length + 16 - 16) = ct := by
    rw [hsub]; exact List.take_left ct tag
  have hdrop2 : (ct ++ tag).drop (ct.length + 16 - 16) = tag := by
    rw [hsub]; exact List.drop_left ct tag
  simp only [EncryptionManager.decrypt]
  rw [if_neg (by omega), hdrop, htake, hrl, if_neg (by omega), htake2, hdrop2]

theorem set_append_right : ∀ (l₁ l₂ : List Nat) (i x : Nat), l₁.length ≤ i →
    (l₁ ++ l₂).set i x = l₁ ++ l₂.set (i - l₁.length) x
  | [], l₂, i, x, _ => by simp
  | a :: as, l₂, 0, x, h => by simp at h
  | a :: as, l₂, i + 1, x, h => by
    simp only [List.cons_append, List.set_cons_succ, List.length_cons,
      Nat.succ_sub_succ]
    exact congrArg (a :: ·) (set_append_right as l₂ i x (by simpa using h))

/-! ## Helper lemmas: vault layer -/

theorem startsWithL_append : ∀ (p t : List Char), startsWithL p (p ++ t) = true
  | [], _ => rfl
  | c :: cs, t => by simp [startsWithL, startsWithL_append cs t]

theorem endsWithL_append (s t : List Char) : endsWithL s (t ++ s) = true := by
  unfold endsWithL
  rw [List.reverse_append]
  exact startsWithL_append s.reverse t.reverse

theorem isNoteEntryName_noteFileName (id : Nat) :
    isNoteEntryName (noteFileName id) = true := by
  unfold isNoteEntryName noteFileName
  rw [Bool.and_eq_true]
  constructor
  · rw [List.append_assoc]
    exact startsWithL_append "notes/".data (uuidChars id ++ ".json".data)
  · exact endsWithL_append ".json".data ("notes/".data ++ uuidChars id)

theorem isNoteEntryName_metadataName : isNoteEntryName metadataName = false := by
  decide

theorem readNotes_mkNoteEntries (c : JsonCodec) (nonces : Nat → List Nat) :
    ∀ (notes : List Note), (∀ n ∈ notes, c.desNote (c.serNote n) = some n) →
    ∀ i, readNotes c none (mkNoteEntries c none nonces i notes) = .ok notes
  | [], _, _ => rfl
  | n :: rest, hn, i => by
    simp only [mkNoteEntries, readNotes, isNoteEntryName_noteFileName, if_true]
    rw [hn n (List.mem_cons_self n rest),
      readNotes_mkNoteEntries c nonces rest
        (fun x hx => hn x (List.mem_cons_of_mem n hx)) (i + 1)]

theorem readNotes_append (c : JsonCodec) (enc : Option EncryptionManager) :
    ∀ (pre rest : Archive), readNotes c enc (pre ++ rest) =
      match readNotes c enc pre with
      | .error e => .error e
      | .ok l =>
        match readNotes c enc rest with
        | .error e => .error e
        | .ok l' => .ok (l ++ l')
  | [], rest => by
    simp only [List.nil_append, readNotes]
    cases readNotes c enc rest <;> simp
  | (name, data) :: pre, rest => by
    simp only [List.cons_append, readNotes]
    by_cases hname : isNoteEntryName name = true
    · rw [if_pos hname, if_pos hname]
      cases hpay : (match enc with
             | none => Except.ok data
             | some m => (m.decrypt data).mapError (fun _ => VaultError.encryptionError)) with
      | error e => rfl
      | ok payload =>
        dsimp only
        cases c.desNote payload with
        | none => rfl
        | some note =>
          dsimp only
          rw [show pre.append rest = pre ++ rest from rfl,
            readNotes_append c enc pre rest]
          cases readNotes c enc pre with
          | error e => rfl
          | ok l =>
            cases readNotes c enc rest with
            | error e => rfl
            | ok l' => rfl
    · rw [if_neg hname, if_neg hname]
      exact readNotes_append c enc pre rest

theorem readNotes_ne_ok (c : JsonCodec) (m : EncryptionManager) (err : EncError) :
    ∀ (archive : Archive) (en : Entry), en ∈ archive → isNoteEntryName en.1 = true →
      m.decrypt en.2 = .error err → ∀ l, readNotes c (some m) archive ≠ .ok l
  | [], en, hmem, _, _, _ => by cases hmem
  | (name, data) :: tl, en, hmem, hfilt, hdec, l => by
    rcases List.mem_cons.mp hmem with heq | htl
    · subst heq
      simp only [readNotes, if_pos hfilt]
      try dsimp only
      rw [hdec]
      intro hok
      cases hok
    · simp only [readNotes]
      by_cases hname : isNoteEntryName name = true
      · rw [if_pos hname]
        try dsimp only
        cases hpay : (m.decrypt data).mapError (fun _ => VaultError.encryptionError) with
        | error e => intro hok; cases hok
        | ok payload =>
          dsimp only
          cases c.desNote payload with
          | none => intro hok; cases hok
          | some note =>
            dsimp only
            cases hrec : readNotes c (some m) tl with
            | error e => intro hok; cases hok
            | ok l' =>
              exact absurd hrec (readNotes_ne_ok c m err tl en htl hfilt hdec l')
      · rw [if_neg hname]
        exact readNotes_ne_ok c m err tl en htl hfilt hdec l

/-! ## Claim theorems -/

/-- C2: for every cipher (`derive_cipher` is deterministic, so deriving
twice from the same passphrase and salt yields the same manager; the
theorem quantifies over all managers, hence over all derivable ones),
every 12-byte nonce drawn by `encrypt`, and every plaintext, decrypting
the result of encrypting returns exactly the original plaintext. -/
theorem encrypt_decrypt_roundtrip (m : EncryptionManager)
    (nonceBytes plaintext : List Nat) (h : nonceBytes.length = 12) :
    m.decrypt (m.encrypt nonceBytes plaintext) = .ok plaintext := by
  have hct := length_ctBody m.blockCipher m.key (bytesToNatBE nonceBytes) plaintext
  rw [show m.encrypt nonceBytes plaintext =
      nonceBytes
        ++ xorBytes plaintext
            (keystream m.blockCipher m.key (bytesToNatBE nonceBytes) plaintext.length)
        ++ natToBytesBE 16
            (gcmTag m.blockCipher m.key (bytesToNatBE nonceBytes)
              (xorBytes plaintext
                (keystream m.blockCipher m.key (bytesToNatBE nonceBytes) plaintext.length)))
      from rfl]
  rw [decrypt_append m _ _ _ h (length_natToBytesBE _ _), if_pos rfl, hct]
  exact congrArg Except.ok
    (xorBytes_cancel plaintext _ (by simp [length_keystream]))

/-- C2 witness: the round trip at a concrete manager, nonce and
plaintext. -/
theorem encrypt_decrypt_roundtrip_witness :
    m0.decrypt (m0.encrypt nz12 [1, 2, 3]) = .ok [1, 2, 3] :=
  encrypt_decrypt_roundtrip m0 nz12 [1, 2, 3] (by decide)

/-- C7 (amended): for every cipher, 12-byte nonce and plaintext, the
output of `encrypt` is exactly the nonce followed by the CTR ciphertext
body followed by the 16-byte (128-bit) authentication tag, so its length
is the plaintext length plus 12 nonce bytes plus 16 tag bytes (the
original claim's 12-byte tag is wrong: `Aes256Gcm` uses a full 128-bit
tag). -/
theorem encrypt_format (m : EncryptionManager) (nonce p : List Nat)
    (h : nonce.length = 12) :
    m.encrypt nonce p =
      nonce
        ++ xorBytes p (keystream m.blockCipher m.key (bytesToNatBE nonce) p.length)
        ++ natToBytesBE 16
            (gcmTag m.blockCipher m.key (bytesToNatBE nonce)
              (xorBytes p (keystream m.blockCipher m.key (bytesToNatBE nonce) p.length)))
    ∧ (m.encrypt nonce p).length = p.length + 12 + 16
    ∧ (xorBytes p (keystream m.blockCipher m.key (bytesToNatBE nonce) p.length)).length
        = p.length
    ∧ (natToBytesBE 16
        (gcmTag m.blockCipher m.key (bytesToNatBE nonce)
          (xorBytes p (keystream m.blockCipher m.key (bytesToNatBE nonce) p.length)))).length
        = 16 :=
  ⟨rfl,
   by rw [encrypt_length, h]; omega,
   length_ctBody m.blockCipher m.key (bytesToNatBE nonce) p,
   length_natToBytesBE 16 _⟩

/-- C7 witness: the amended format at a concrete manager, nonce and
one-byte plaintext. -/
theorem encrypt_format_witness :
    (m0.encrypt nz12 [5]).length = [5].length + 12 + 16 :=
  (encrypt_format m0 nz12 [5] (by decide)).2.1

/-- C7 counterexample: the claim as stated (output length = plaintext
length + 12 nonce bytes + 12 tag bytes) is false already for the empty
plaintext: the output has 28 bytes, not 24. -/
theorem encrypt_format_counterexample :
    ¬ ((m0.encrypt nz12 ([] : List Nat)).length = ([] : List Nat).length + 12 + 12) := by
  rw [encrypt_length]
  decide

/-- C8 (amended): `decrypt` fails with `DecryptionFailed` (1) whenever the
blob is shorter than the 12-byte nonce, and (2) whenever the stored
authentication tag differs from the tag recomputed over the ciphertext
body; in particular (3) flipping any single byte of the 16-byte tag
portion of a valid encrypted blob always causes `decrypt` to fail.  (A
flip in the nonce or ciphertext-body portion is detected exactly when it
changes the tag check; the original claim's unconditional detection fails
for degenerate block ciphers, see the counterexample.) -/
theorem decrypt_failure_modes :
    (∀ (m : EncryptionManager) (blob : List Nat), blob.length < 12 →
       m.decrypt blob = .error .decryptionFailed)
  ∧ (∀ (m : EncryptionManager) (nonce ct tag : List Nat),
       nonce.length = 12 → tag.length = 16 →
       tag ≠ natToBytesBE 16 (gcmTag m.blockCipher m.key (bytesToNatBE nonce) ct) →
       m.decrypt (nonce ++ ct ++ tag) = .error .decryptionFailed)
  ∧ (∀ (m : EncryptionManager) (nonce p : List Nat) (i b : Nat),
       nonce.length = 12 → 12 + p.length ≤ i → i < p.length + 28 →
       (m.encrypt nonce p)[i]? ≠ some b →
       m.decrypt ((m.encrypt nonce p).set i b) = .error .decryptionFailed) := by
  refine ⟨?_, ?_, ?_⟩
  · intro m blob h
    simp only [EncryptionManager.decrypt]
    rw [if_pos h]
  · intro m nonce ct tag h12 h16 hne
    rw [decrypt_append m nonce ct tag h12 h16, if_neg hne]
  · intro m nonce p i b h12 hlo hhi hne
    set KS := keystream m.blockCipher m.key (bytesToNatBE nonce) p.length with hKS
    set CT := xorBytes p KS with hCT
    set TB := natToBytesBE 16 (gcmTag m.blockCipher m.key (bytesToNatBE nonce) CT) with hTB
    have hct : CT.length = p.length :=
      length_ctBody m.blockCipher m.key (bytesToNatBE nonce) p
    have henc : m.encrypt nonce p = nonce ++ CT ++ TB := rfl
    have hpre : (nonce ++ CT).length = 12 + p.length := by
      rw [List.length_append, h12, hct]
    have hple : (nonce ++ CT).length ≤ i := by rw [hpre]; exact hlo
    have htb16 : TB.length = 16 := length_natToBytesBE 16 _
    have hj : i - (12 + p.length) < 16 := by omega
    have hset : (m.encrypt nonce p).set i b
        = nonce ++ CT ++ TB.set (i - (12 + p.length)) b := by
      rw [henc, set_append_right (nonce ++ CT) TB i b hple, hpre]
    have hgetB : (m.encrypt nonce p)[i]? = TB[i - (12 + p.length)]? := by
      rw [henc, List.getElem?_append_right hple, hpre]
    have hne' : TB.set (i - (12 + p.length)) b ≠ TB := by
      intro heq
      have h1 : (TB.set (i - (12 + p.length)) b)[i - (12 + p.length)]? = some b :=
        List.getElem?_set_self (by rw [htb16]; exact hj)
      rw [heq] at h1
      exact hne (hgetB.trans h1)
    rw [hset, decrypt_append m nonce CT _ h12 (by rw [List.length_set]; exact htb16)]
    exact if_neg hne'

/-- C8 witness: flipping byte 13 (inside the tag region) of a valid blob
makes decryption fail, at a concrete manager and plaintext. -/
theorem decrypt_failure_modes_witness :
    m0.decrypt ((m0.encrypt nz12 [7]).set 13 1) = .error .decryptionFailed :=
  decrypt_failure_modes.2.2 m0 nz12 [7] 13 1 (by decide) (by decide) (by decide)
    (by decide)

/-- C8 counterexample: under the degenerate block cipher of `m0` the GCM
hash subkey is zero, so every tag is the zero block: flipping the single
ciphertext-body byte (index 12) of a valid blob is NOT detected — decrypt
returns `ok [6]`, a wrong plaintext, instead of an error.  The claim's
universal single-byte tamper detection therefore does not hold for every
instantiation of the block cipher. -/
theorem decrypt_failure_modes_counterexample :
    m0.decrypt (m0.encrypt nz12 [7]) = .ok [7]
    ∧ m0.decrypt ((m0.encrypt nz12 [7]).set 12 6) = .ok [6] := by
  constructor <;> decide

/-- C1: exporting any vault with any ordered note list (empty included)
without a cipher and importing the resulting archive without a cipher
succeeds, returns a vault equal to the original (in particular with the
same id) and the very same note list in order; and the written metadata's
note_count is the number of notes (0 for the empty list).  The serde_json
layer is a codec parameter; the pointwise round-trip facts it needs are
hypotheses. -/
theorem export_import_roundtrip (mgr : FileStorage) (v : Vault)
    (notes : List Note) (c : JsonCodec) (nonces : Nat → List Nat) (d : Nat)
    (pol : ConflictResolution)
    (hm : c.desMeta (c.serMeta (mkMetadata v notes d)) = some (mkMetadata v notes d))
    (hn : ∀ n ∈ notes, c.desNote (c.serNote n) = some n) :
    importVault mgr (exportVault mgr v notes c none nonces d) c none pol
      = .ok (v, notes)
    ∧ (mkMetadata v notes d).note_count = notes.length := by
  refine ⟨?_, rfl⟩
  have hfind : ((metadataName, c.serMeta (mkMetadata v notes d))
        :: mkNoteEntries c none nonces 0 notes).find? (fun e => e.1 == metadataName)
      = some (metadataName, c.serMeta (mkMetadata v notes d)) := by
    simp [List.find?_cons]
  unfold importVault exportVault
  rw [hfind]
  dsimp only
  rw [hm]
  dsimp only
  rw [show readNotes c none
        ((metadataName, c.serMeta (mkMetadata v notes d))
          :: mkNoteEntries c none nonces 0 notes)
      = readNotes c none (mkNoteEntries c none nonces 0 notes) by
    simp [readNotes, isNoteEntryName_metadataName]]
  rw [readNotes_mkNoteEntries c nonces notes hn 0]
  rfl

/-- C1 witness: round trip of a two-note vault through a concrete codec. -/
theorem export_import_roundtrip_witness :
    importVault mgr0
        (exportVault mgr0 wVault [wNote1, wNote2] wCodecC1 none (fun _ => []) 0)
        wCodecC1 none .overwrite
      = .ok (wVault, [wNote1, wNote2])
    ∧ (mkMetadata wVault [wNote1, wNote2] 0).note_count = [wNote1, wNote2].length :=
  export_import_roundtrip mgr0 wVault [wNote1, wNote2] wCodecC1 (fun _ => []) 0
    .overwrite rfl (by decide)

/-- C3 (amended): (a) whenever any note entry of an archive fails to
decrypt under the supplied cipher, `import_vault` returns an error — never
a note list (so no note is silently skipped); (b) when moreover the
metadata entry is found and parses and every note entry before the failing
one decrypts and parses, the error is precisely `EncryptionError`.  (The
original claim's unconditional `EncryptionError` is false: an earlier
failure of another kind — missing metadata, an earlier unparsable note —
surfaces as its own error, see the counterexample.) -/
theorem import_fails_on_decrypt_failure :
    (∀ (mgr : FileStorage) (archive : Archive) (c : JsonCodec)
       (m : EncryptionManager) (pol : ConflictResolution) (en : Entry)
       (err : EncError),
       en ∈ archive → isNoteEntryName en.1 = true → m.decrypt en.2 = .error err →
       ∃ ve, importVault mgr archive c (some m) pol = .error ve)
  ∧ (∀ (mgr : FileStorage) (pre post : Archive) (name : List Char)
       (data : List Nat) (c : JsonCodec) (m : EncryptionManager)
       (pol : ConflictResolution) (nm : List Char) (mb : List Nat)
       (md : VaultMetadata) (l : List Note) (err : EncError),
       (pre ++ (name, data) :: post).find? (fun e => e.1 == metadataName)
         = some (nm, mb) →
       c.desMeta mb = some md →
       readNotes c (some m) pre = .ok l →
       isNoteEntryName name = true →
       m.decrypt data = .error err →
       importVault mgr (pre ++ (name, data) :: post) c (some m) pol
         = .error .encryptionError) := by
  constructor
  · intro mgr archive c m pol en err hmem hfilt hdec
    unfold importVault
    cases archive.find? (fun e => e.1 == metadataName) with
    | none => exact ⟨.zipError, rfl⟩
    | some e =>
      obtain ⟨nm, mb⟩ := e
      dsimp only
      cases c.desMeta mb with
      | none => exact ⟨.serializationError, rfl⟩
      | some md =>
        dsimp only
        cases hr : readNotes c (some m) archive with
        | error ve => exact ⟨ve, rfl⟩
        | ok l =>
          exact absurd hr (readNotes_ne_ok c m err archive en hmem hfilt hdec l)
  · intro mgr pre post name data c m pol nm mb md l err hfind hm hpre hname hdec
    unfold importVault
    rw [hfind]
    dsimp only
    rw [hm]
    dsimp only
    have hrn : readNotes c (some m) (pre ++ (name, data) :: post)
        = .error .encryptionError := by
      rw [readNotes_append c (some m) pre ((name, data) :: post), hpre]
      have hhd : readNotes c (some m) ((name, data) :: post)
          = .error .encryptionError := by
        simp only [readNotes, if_pos hname]
        try dsimp only
        rw [hdec]
        rfl
      dsimp only
      rw [hhd]
    rw [hrn]

/-- C3 witness: an archive whose metadata parses and whose single note
entry fails to decrypt (it is shorter than the nonce) makes the whole
vault import fail with `EncryptionError`. -/
theorem import_fails_on_decrypt_failure_witness :
    importVault mgr0 ([(metadataName, [0])] ++ (noteFileName 2, ([] : List Nat)) :: [])
        wCodecC3 (some m0) .overwrite
      = .error .encryptionError :=
  import_fails_on_decrypt_failure.2 mgr0 [(metadataName, [0])] [] (noteFileName 2)
    [] wCodecC3 m0 .overwrite metadataName [0] (mkMetadata wVault [] 0) []
    .decryptionFailed (by decide) rfl rfl (by decide) (by decide)

/-- C3 counterexample: in `cexArchiveC3` the second note entry fails to
decrypt under `m0`, yet the import fails with `SerializationError` (the
first note entry decrypts fine but does not parse), not with the
`EncryptionError` the claim demands for every such archive. -/
theorem import_fails_on_decrypt_failure_counterexample :
    importVault mgr0 cexArchiveC3 wCodecC3 (some m0) .overwrite
        = .error .serializationError
    ∧ m0.decrypt [] = .error .decryptionFailed
    ∧ isNoteEntryName (noteFileName 2) = true
    ∧ (noteFileName 2, ([] : List Nat)) ∈ cexArchiveC3 := by
  refine ⟨by decide, by decide, by decide, by decide⟩

/-- C4 (amended): `detect_conflicts` returns, in the order of the
given imported sequence, exactly the pairs `(e, i)` where `e` is the FIRST note
of `existing` with `e.id == i.id` (the source uses `Iterator::find`) and
version or updated_at differ; equal version and updated_at produce no
conflict.  (The original claim's "e is in existing" is false when two
existing notes share an id, see the counterexample.) -/
theorem detect_conflicts_characterization (mgr : FileStorage)
    (ex imp : List Note) :
    detectConflicts mgr ex imp = imp.filterMap (fun i =>
        match ex.find? (fun n => n.id == i.id) with
        | some e => if e.version ≠ i.version ∨ e.updated_at ≠ i.updated_at
                    then some (e, i) else none
        | none => none)
    ∧ ∀ e i, (e, i) ∈ detectConflicts mgr ex imp ↔
        (i ∈ imp ∧ ex.find? (fun n => n.id == i.id) = some e
          ∧ (e.version ≠ i.version ∨ e.updated_at ≠ i.updated_at)) := by
  have h1 : ∀ l, detectConflicts mgr ex l = l.filterMap (fun i =>
      match ex.find? (fun n => n.id == i.id) with
      | some e => if e.version ≠ i.version ∨ e.updated_at ≠ i.updated_at
                  then some (e, i) else none
      | none => none) := by
    intro l
    induction l with
    | nil => rfl
    | cons i rest ih =>
      rw [List.filterMap_cons]
      simp only [detectConflicts]
      cases hf : ex.find? (fun n => n.id == i.id) with
      | none => exact ih
      | some e =>
        dsimp only
        by_cases hd : e.version ≠ i.version ∨ e.updated_at ≠ i.updated_at
        · rw [if_pos hd, if_pos hd, ih]
        · rw [if_neg hd, if_neg hd, ih]
  refine ⟨h1 imp, ?_⟩
  intro e i
  rw [h1 imp, List.mem_filterMap]
  constructor
  · rintro ⟨a, ha, hfa⟩
    cases hfind : ex.find? (fun n => n.id == a.id) with
    | none => rw [hfind] at hfa; cases hfa
    | some e' =>
      rw [hfind] at hfa
      dsimp only at hfa
      by_cases hd : e'.version ≠ a.version ∨ e'.updated_at ≠ a.updated_at
      · rw [if_pos hd] at hfa
        obtain ⟨he, hi⟩ := Prod.mk.injEq .. ▸ Option.some.injEq .. ▸ hfa
        subst he
        subst hi
        exact ⟨ha, hfind, hd⟩
      · rw [if_neg hd] at hfa
        cases hfa
  · rintro ⟨hi, hfind, hd⟩
    refine ⟨i, hi, ?_⟩
    rw [hfind]
    dsimp only
    rw [if_pos hd]

/-- C4 witness: a genuine conflict (same id, version bumped) is detected. -/
theorem detect_conflicts_characterization_witness :
    (wNote1, wNote1v2) ∈ detectConflicts mgr0 [wNote1] [wNote1v2] :=
  ((detect_conflicts_characterization mgr0 [wNote1] [wNote1v2]).2 wNote1
    wNote1v2).mpr (by refine ⟨by decide, by decide, by decide⟩)

/-- C4 counterexample: with two existing notes sharing id 1 (versions 1
and 2) and an imported note equal to the first, the source's `find` stops
at the first match, which is not in conflict, so no pair is returned —
although `(e2c4, imported)` satisfies the claim's membership condition
(e2c4 is in existing, same id, different version). -/
theorem detect_conflicts_counterexample :
    detectConflicts mgr0 [e1c4, e2c4] [e1c4] = []
    ∧ e2c4 ∈ [e1c4, e2c4] ∧ e1c4 ∈ [e1c4]
    ∧ e2c4.id = e1c4.id ∧ e2c4.version ≠ e1c4.version := by
  refine ⟨by decide, by decide, by decide, by decide, by decide⟩

/-- C5: `resolve_conflict` with KeepBoth returns exactly the existing note
unchanged followed by a copy of the imported note whose id is the freshly
generated uuid (assumed distinct from the imported note's id, as a fresh
random v4 uuid is), whose title gains the " (Imported Copy)" suffix, and
whose other fields are the imported note's. -/
theorem resolve_conflict_keep_both (mgr : FileStorage) (e i : Note)
    (freshId : Nat) (h : freshId ≠ i.id) :
    resolveConflict mgr e i freshId .keepBoth =
      [e, { id := freshId, title := i.title ++ " (Imported Copy)",
            content := i.content, tags := i.tags, created_at := i.created_at,
            updated_at := i.updated_at, version := i.version }]
    ∧ freshId ≠ i.id :=
  ⟨rfl, h⟩

/-- C5 witness: KeepBoth at concrete notes and a concrete fresh id. -/
theorem resolve_conflict_keep_both_witness :
    resolveConflict mgr0 wNote1 wNote2 99 .keepBoth =
      [wNote1,
       { id := 99, title := wNote2.title ++ " (Imported Copy)",
         content := wNote2.content, tags := wNote2.tags,
         created_at := wNote2.created_at, updated_at := wNote2.updated_at,
         version := wNote2.version }]
    ∧ (99 : Nat) ≠ wNote2.id :=
  resolve_conflict_keep_both mgr0 wNote1 wNote2 99 (by decide)

/-- C6: the result of `import_vault` is identical for all three conflict
policies and for any two storage states (the `_conflict_resolution`
parameter and `self.storage` are never consulted), and its type returns no
updated storage, so no local note state is read or mutated. -/
theorem import_ignores_policy_and_storage (mgr₁ mgr₂ : FileStorage)
    (archive : Archive) (c : JsonCodec) (enc : Option EncryptionManager)
    (p₁ p₂ : ConflictResolution) :
    importVault mgr₁ archive c enc p₁ = importVault mgr₂ archive c enc p₂ := rfl

/-- C9: the code_bug exhibit — dropping an `EncryptionManager` leaves its
key material byte-for-byte intact (the `Drop` impl body is empty), so the
key is NOT overwritten with zeros as the claim demands. -/
theorem drop_does_not_zeroize :
    (dropEncryptionManager mC9).key = 42 ∧ (dropEncryptionManager mC9).key ≠ 0 := by
  refine ⟨rfl, by decide⟩

/-- C10: `import_vault` never compares the metadata's `note_count` with
the number of note entries: whenever the metadata entry is found and
parses to `md` and the note-reading loop succeeds with `ns`, the import
returns `ok (md.vault, ns)` — even under the explicit hypothesis that
`md.note_count` differs from the number of parsed notes. -/
theorem import_ignores_note_count (mgr : FileStorage) (archive : Archive)
    (c : JsonCodec) (enc : Option EncryptionManager) (pol : ConflictResolution)
    (nm : List Char) (mb : List Nat) (md : VaultMetadata) (ns : List Note)
    (hfind : archive.find? (fun e => e.1 == metadataName) = some (nm, mb))
    (hm : c.desMeta mb = some md)
    (hn : readNotes c enc archive = .ok ns)
    (hdiff : md.note_count ≠ ns.length) :
    importVault mgr archive c enc pol = .ok (md.vault, ns) := by
  unfold importVault
  rw [hfind]
  dsimp only
  rw [hm]
  dsimp only
  rw [hn]

/-- C10 witness: an archive with one note entry whose metadata claims five
notes imports successfully and returns the one parsed note. -/
theorem import_ignores_note_count_witness :
    importVault mgr0 wArchiveC10 wCodecC10 none .skip = .ok (wVault, [wNote1]) :=
  import_ignores_note_count mgr0 wArchiveC10 wCodecC10 none .skip metadataName
    [0] ⟨wVault, 5, 0, "1.0"⟩ [wNote1] (by decide) rfl (by decide) (by decide)

end NullSpace
